import Mathlib

/-!
Verification development for the caracas-signal event-study engine.

The source is shallowly embedded over exact rationals: a price or return
series is a list of (timestamp, value) pairs with natural-number
timestamps, pandas float NaN is modelled as `none`, and the only real
number entering the development is the residual standard deviation
(a square root), which lives in `ℝ`.
-/

set_option maxRecDepth 100000

namespace CaracasSignal

/-- A pandas Series with a timestamp index: ordered (timestamp, value) pairs. -/
abbrev Series := List (ℕ × ℚ)

/-- The index of a series. -/
def seriesDates (s : Series) : List ℕ := s.map Prod.fst

/-- The values of a series. -/
def seriesVals (s : Series) : List ℚ := s.map Prod.snd

/-- `s.loc[t]` for a single label: the first value stored at timestamp `t`. -/
def lookupDate (t : ℕ) (s : Series) : Option ℚ :=
  (s.find? (fun p => p.1 == t)).map Prod.snd

/-- `close.pct_change().dropna()` on the list of close values
(src/models.py line 70, src/factor_model.py lines 64-66): the first bar is
dropped, and entry `i` of the result is `close[i+1]/close[i] - 1`. -/
def pctChange (closes : List ℚ) : List ℚ :=
  List.zipWith (fun prev cur => cur / prev - 1) closes closes.tail

/-- `pct_change().dropna()` keeping the timestamp of the later bar, as the
pandas result does. -/
def pctChangeSeries (s : Series) : Series :=
  List.zipWith (fun prev cur => (cur.1, cur.2 / prev.2 - 1)) s s.tail

/-- Running product with accumulator, as `numpy`/pandas `cumprod` computes it. -/
def cumprodFrom (acc : ℚ) : List ℚ → List ℚ
  | [] => []
  | x :: xs => (acc * x) :: cumprodFrom (acc * x) xs

/-- `xs.cumprod()`. -/
def cumprod (xs : List ℚ) : List ℚ := cumprodFrom 1 xs

/-- `(1 + residuals).cumprod() - 1` (src/factor_model.py line 117): the running
cumulative abnormal return at every bar of the event window. -/
def cumResiduals (resid : List ℚ) : List ℚ :=
  (cumprod (resid.map (fun r => 1 + r))).map (fun y => y - 1)

/-- The cumulative abnormal return of a block of abnormal returns:
the compounded product `Π(1 + r) - 1`. -/
def carVals (vals : List ℚ) : ℚ := (vals.map (fun r => 1 + r)).prod - 1

/-- The cumulative abnormal return over the sub-window `[a, b)` of an
abnormal-return list (bars `a, a+1, ..., b-1`). -/
def carWindow (rs : List ℚ) (a b : ℕ) : ℚ := carVals ((rs.drop a).take (b - a))

/-- The cumulative-abnormal-return series with its timestamp index, as built
from the residual series at src/factor_model.py line 117. -/
def carSeries (resid : Series) : Series :=
  List.zip (seriesDates resid) (cumResiduals (seriesVals resid))

/-- src/factor_model.py lines 131-139: given the boundary timestamp `tstar`,
report (CAR at the last bar strictly before `tstar`, CAR at the close, their
difference).  When no bar is at or after `tstar` the report is skipped, and
when no bar precedes `tstar` the source hits an IndexError that the outer
handler swallows; both cases are modelled as `none`. -/
def leakReport (resid : Series) (tstar : ℕ) : Option (ℚ × ℚ × ℚ) :=
  let cum := carSeries resid
  let post := cum.filter (fun p => decide (tstar ≤ p.1))
  if post.isEmpty then none
  else
    match (cum.filter (fun p => decide (p.1 < tstar))).getLast?, cum.getLast? with
    | some pre, some last => some (pre.2, last.2, last.2 - pre.2)
    | _, _ => none

/-- `xs.mean()`. -/
def mean (xs : List ℚ) : ℚ := xs.sum / xs.length

/-- `xs.std() ** 2` with pandas ddof = 1: the sample variance
`Σ(x - mean)² / (n - 1)`.  For `n ≤ 1` the quotient degenerates to `0`
(pandas would give NaN there; no claim depends on that case). -/
def sampleVar (xs : List ℚ) : ℚ :=
  ((xs.map (fun x => (x - mean xs) ^ 2)).sum) / ((xs.length : ℚ) - 1)

/-- `xs.std()` with ddof = 1: the square root of the sample variance. -/
noncomputable def sampleStd (xs : List ℚ) : ℝ := Real.sqrt ((sampleVar xs : ℚ) : ℝ)

/-- The slope formula of `scipy.stats.linregress(x, y)`:
`Σ(x - x̄)(y - ȳ) / Σ(x - x̄)²`. -/
def linregressSlope (x y : List ℚ) : ℚ :=
  ((List.zipWith (fun a b => (a - mean x) * (b - mean y)) x y).sum) /
    ((x.map (fun a => (a - mean x) ^ 2)).sum)

/-- The outcome of a library call that returns a float but can also raise:
an escaping exception, the NaN float, or an ordinary value. -/
inductive FloatResult where
  | raised
  | nan
  | val (q : ℚ)
deriving DecidableEq

/-- `scipy.stats.linregress(x, y)`: raises
`ValueError("Cannot calculate a linear regression if all x values are
identical")` when `x` has more than one element and all of them are equal
(`np.amax(x) == np.amin(x)`); otherwise the OLS slope. -/
def linregress (x y : List ℚ) : FloatResult :=
  if 1 < x.length ∧ ∀ a ∈ x, ∀ b ∈ x, a = b then FloatResult.raised
  else FloatResult.val (linregressSlope x y)

/-- `idx1.intersection(idx2)` on already-deduplicated, sorted indexes:
the labels of `xs` that also occur in `ys`, in the order of `xs`. -/
def interIdx (xs ys : List ℕ) : List ℕ := xs.filter (fun t => ys.contains t)

/-- `s.loc[idx]`: the rows of `s` selected by the labels of `idx`, in the
order of `idx`. -/
def reindexTo (idx : List ℕ) (s : Series) : Series :=
  idx.filterMap (fun t => (s.find? (fun p => p.1 == t)).map (fun p => (t, p.2)))

/-- src/models.py lines 27-39, `calculate_beta`: intersect the two indexes;
with fewer than 30 overlapping dates the source logs a warning and returns
`np.nan`; otherwise it calls `stats.linregress(x, y)` at line 38, which
raises ValueError when the market values on the common index are all
identical — an exception `calculate_beta` does not catch. -/
def calculate_beta (asset market : Series) : FloatResult :=
  let common := interIdx (seriesDates asset) (seriesDates market)
  if common.length < 30 then FloatResult.nan
  else
    let y := common.filterMap (fun t => lookupDate t asset)
    let x := common.filterMap (fun t => lookupDate t market)
    linregress x y

open Classical in
/-- src/models.py lines 41-49, `calculate_z_score`: when the historical
standard deviation is exactly zero the source explicitly returns `np.nan`
(modelled as `none`); otherwise `(x - mean) / std`. -/
noncomputable def calculate_z_score (returnVal : ℚ) (history : List ℚ) : Option ℝ :=
  let mu := mean history
  let sigma := sampleStd history
  if sigma = 0 then none
  else some (((returnVal - mu : ℚ) : ℝ) / sigma)

/-- `target_hist - beta * market_hist` followed by `.std()`'s NaN-skipping:
pandas aligns the two series on their common index, so the residual list
holds `target_t - beta * market_t` for each common date `t`
(src/models.py line 110). -/
def residualsOf (targetHist marketHist : Series) (beta : ℚ) : List ℚ :=
  (interIdx (seriesDates targetHist) (seriesDates marketHist)).filterMap
    (fun t =>
      match lookupDate t targetHist, lookupDate t marketHist with
      | some a, some m => some (a - beta * m)
      | _, _ => none)

/-- Positional boolean-mask selection, the numpy semantics of
`series[mask]` when the mask length matches the series length. -/
def maskSelect (mask : List Bool) (s : Series) : Series :=
  (s.zip mask).filterMap (fun pb => if pb.2 then some pb.1 else none)

/-- src/models.py line 76: `target_rets.index.date < event_date`, a boolean
array built from the target index. -/
def histMask (s : Series) (eventDate : ℕ) : List Bool :=
  s.map (fun p => decide (p.1 < eventDate))

/-- The value of the z-score float: NaN, one of the two infinities that
float division of a nonzero numerator by 0.0 produces, or a finite value. -/
inductive FloatVal where
  | nan
  | posInf
  | negInf
  | val (x : ℝ)

/-- The float `abnormal / 0.0`: +inf, −inf, or NaN according to the sign of
the numerator. -/
def zUndef (abnormal : ℚ) : FloatVal :=
  if 0 < abnormal then FloatVal.posInf
  else if abnormal < 0 then FloatVal.negInf
  else FloatVal.nan

/-- The fields of the dict returned by `run_beta_analysis`
(src/models.py lines 115-123); NaN floats in the rational fields are `none`,
and the z-score carries its full float state (NaN, ±inf, or a value). -/
structure BetaResult where
  beta : Option ℚ
  eventReturn : ℚ
  expectedReturn : Option ℚ
  abnormalReturn : Option ℚ
  zScore : FloatVal

/-- The three ways `run_beta_analysis` can end: an uncaught exception
propagates to the caller, `None` is returned, or a result dict is returned. -/
inductive BetaOutcome where
  | raised
  | noResult
  | result (r : BetaResult)

/-- src/models.py lines 73-123 from the point where both daily return series
exist.  Line 79 applies the boolean mask built from the target index to the
market series: numpy raises IndexError when the lengths differ, and that line
sits outside the try block, so the exception escapes (`BetaOutcome.raised`).
Line 81 then computes beta before any event-date check: a ValueError from
`stats.linregress` on a constant benchmark history also escapes.  After that
the event-date lookups return `None` when the date is missing.  The z-score
is NaN when beta is NaN or the residual count is below 2 (pandas std gives
NaN), `abnormal / 0.0` (±inf or NaN) when the residual std is exactly zero,
and a finite value otherwise. -/
noncomputable def runBetaCore (targetRets marketRets : Series) (eventDate : ℕ) :
    BetaOutcome :=
  if targetRets.length ≠ marketRets.length then BetaOutcome.raised
  else
    let mask := histMask targetRets eventDate
    let targetHist := maskSelect mask targetRets
    let marketHist := maskSelect mask marketRets
    match calculate_beta targetHist marketHist with
    | FloatResult.raised => BetaOutcome.raised
    | FloatResult.nan =>
      match targetRets.find? (fun p => p.1 == eventDate) with
      | none => BetaOutcome.noResult
      | some tp =>
        match marketRets.find? (fun p => p.1 == eventDate) with
        | none => BetaOutcome.noResult
        | some mp => BetaOutcome.result ⟨none, tp.2, none, none, FloatVal.nan⟩
    | FloatResult.val b =>
      match targetRets.find? (fun p => p.1 == eventDate) with
      | none => BetaOutcome.noResult
      | some tp =>
        match marketRets.find? (fun p => p.1 == eventDate) with
        | none => BetaOutcome.noResult
        | some mp =>
          let resid := residualsOf targetHist marketHist b
          let z : FloatVal :=
            if resid.length ≤ 1 then FloatVal.nan
            else if sampleVar resid = 0 then zUndef (tp.2 - b * mp.2)
            else FloatVal.val (((tp.2 - b * mp.2 : ℚ) : ℝ)
              / Real.sqrt ((sampleVar resid : ℚ) : ℝ))
          BetaOutcome.result ⟨some b, tp.2, some (b * mp.2),
            some (tp.2 - b * mp.2), z⟩

/-- src/forensics.py line 283: the significance conclusion is printed exactly
when `abs(res['z_score']) > 1.96`; with no result or a NaN z-score the
comparison is False, while an infinite z-score (zero residual std with
nonzero abnormal return) does fire it. -/
def betaSignificant : BetaOutcome → Prop
  | BetaOutcome.result r =>
      match r.zScore with
      | FloatVal.val z => 196 / 100 < |z|
      | FloatVal.posInf => True
      | FloatVal.negInf => True
      | FloatVal.nan => False
  | _ => False

/-- The coefficients of `sm.OLS(y, [1, x1, x2]).fit()`. -/
structure OLSFit where
  alpha : ℚ
  betaX1 : ℚ
  betaX2 : ℚ

/-- Ordinary least squares of `y` on `[1, x1, x2]` by Cramer's rule on the
normal equations; junk when the design is singular (statsmodels would
pseudo-invert; no claim depends on the coefficient values). -/
def olsFit (y x1 x2 : List ℚ) : OLSFit :=
  let n : ℚ := y.length
  let s1 := x1.sum
  let s2 := x2.sum
  let s11 := (x1.map (fun a => a ^ 2)).sum
  let s22 := (x2.map (fun a => a ^ 2)).sum
  let s12 := (List.zipWith (fun a b => a * b) x1 x2).sum
  let sy := y.sum
  let s1y := (List.zipWith (fun a b => a * b) x1 y).sum
  let s2y := (List.zipWith (fun a b => a * b) x2 y).sum
  let det := n * (s11 * s22 - s12 * s12) - s1 * (s1 * s22 - s12 * s2)
      + s2 * (s1 * s12 - s11 * s2)
  let d0 := sy * (s11 * s22 - s12 * s12) - s1 * (s1y * s22 - s12 * s2y)
      + s2 * (s1y * s12 - s11 * s2y)
  let d1 := n * (s1y * s22 - s12 * s2y) - sy * (s1 * s22 - s12 * s2)
      + s2 * (s1 * s2y - s1y * s2)
  let d2 := n * (s11 * s2y - s1y * s12) - s1 * (s1 * s2y - s1y * s2)
      + sy * (s1 * s12 - s11 * s2)
  ⟨d0 / det, d1 / det, d2 / det⟩

/-- src/factor_model.py lines 91-95: with fewer than 100 training bars the
source prints an error and returns (`none`); otherwise the OLS fit. -/
def runFactorModelFit (yTrain x1Train x2Train : List ℚ) : Option OLSFit :=
  if yTrain.length < 100 then none else some (olsFit yTrain x1Train x2Train)

/-- src/spread_control.py line 95:
`(daily_max_spreads < event_val).mean() * 100`. -/
def percentileRank (sample : List ℚ) (v : ℚ) : ℚ :=
  (((sample.filter (fun x => decide (x < v))).length : ℚ) / (sample.length : ℚ)) * 100

/-- `series / series.iloc[0]` (src/spread_control.py lines 82-83). -/
def normalizeFirst (xs : List ℚ) : List ℚ :=
  match xs with
  | [] => []
  | x0 :: _ => xs.map (fun x => x / x0)

/-- src/spread_control.py lines 71-85 for one baseline day: align the two
day slices to their common index, normalize each to its first aligned bar,
and subtract. -/
def daySpread (xleDay oilDay : Series) : List ℚ :=
  let common := interIdx (seriesDates xleDay) (seriesDates oilDay)
  let x := seriesVals (reindexTo common xleDay)
  let o := seriesVals (reindexTo common oilDay)
  List.zipWith (fun a b => a - b) (normalizeFirst x) (normalizeFirst o)

/-- `spread.max()` on a list. -/
def listMax : List ℚ → Option ℚ
  | [] => none
  | x :: xs => some (xs.foldl max x)

/-- src/spread_control.py lines 68-89 for one baseline day: skip empty day
slices, skip days with fewer than 30 aligned bars, otherwise record the
maximum of the normalized spread. -/
def dayStat (xleDay oilDay : Series) : Option ℚ :=
  if xleDay.isEmpty ∨ oilDay.isEmpty then none
  else if (interIdx (seriesDates xleDay) (seriesDates oilDay)).length < 30 then none
  else listMax (daySpread xleDay oilDay)

/-- src/spread_control.py lines 61-91: the per-day statistics collected over
the baseline days and scaled by 100 into percent. -/
def placeboDistribution (days : List (Series × Series)) : List ℚ :=
  (days.filterMap (fun d => dayStat d.1 d.2)).map (fun s => s * 100)

/-- A 30-bar constant-price day used by concrete witnesses. -/
def exFlatDay : Series := (List.range 30).map (fun i => (i, (1 : ℚ)))

/-- Witness market series for the beta analysis: dates 0..29 with return `i`,
then the event date 30 with return 2. -/
def exMarket : Series := (List.range 30).map (fun i => ((i, (i : ℚ)) : ℕ × ℚ)) ++ [(30, 2)]

/-- Witness target series: date 0 with return 1, dates 1..29 with return
`2 i`, then the event date 30 with return 5. -/
def exTarget : Series :=
  (0, 1) :: ((List.range 29).map (fun i => ((i + 1, (2 * (i + 1) : ℚ)) : ℕ × ℚ))) ++ [(30, 5)]

/-- Witness series whose target equals its market over dates 0..29 with
return `i`, so the fitted beta is 1 and every residual vanishes; the event
date 30 carries return 4. -/
def exIdent : Series := (List.range 30).map (fun i => ((i, (i : ℚ)) : ℕ × ℚ)) ++ [(30, 4)]

/-- The pre-event history of the witness target series. -/
def exHistT : Series := maskSelect (histMask exTarget 30) exTarget

/-- The pre-event history of the witness market series. -/
def exHistM : Series := maskSelect (histMask exTarget 30) exMarket

/-- The pre-event history of the degenerate witness series. -/
def exHistI : Series := maskSelect (histMask exIdent 30) exIdent

/-- A 31-day benchmark whose returns are all zero: a constant regressor on
which scipy.stats.linregress raises ValueError. -/
def exFlatM : Series := (List.range 31).map (fun i => ((i, (0 : ℚ)) : ℕ × ℚ))

/-- A 31-day target with return `i` on date `i`, paired with exFlatM. -/
def exRampT : Series := (List.range 31).map (fun i => ((i, (i : ℚ)) : ℕ × ℚ))

/-! ### Helper lemmas -/

lemma cumprodFrom_length (acc : ℚ) (xs : List ℚ) :
    (cumprodFrom acc xs).length = xs.length := by
  induction xs generalizing acc with
  | nil => rfl
  | cons x t ih => simpa [cumprodFrom] using ih (acc * x)

lemma cumprodFrom_getElem? (xs : List ℚ) :
    ∀ (acc : ℚ) (i : ℕ), i < xs.length →
      (cumprodFrom acc xs)[i]? = some (acc * (xs.take (i + 1)).prod) := by
  induction xs with
  | nil => intro acc i h; simp at h
  | cons x t ih =>
    intro acc i h
    cases i with
    | zero => simp [cumprodFrom]
    | succ j =>
      have hj : j < t.length := by simpa using h
      simpa [cumprodFrom, mul_assoc] using ih (acc * x) j hj

lemma cumResiduals_getElem? (rs : List ℚ) (i : ℕ) (h : i < rs.length) :
    (cumResiduals rs)[i]? = some (carWindow rs 0 (i + 1)) := by
  have hlen : i < (rs.map (fun r => 1 + r)).length := by simpa using h
  simp only [cumResiduals, cumprod, List.getElem?_map,
    cumprodFrom_getElem? _ 1 i hlen, Option.map_some]
  simp [carWindow, carVals, one_mul, List.map_take]

lemma zipWith_getElem? {α β γ : Type} (f : α → β → γ) :
    ∀ (as : List α) (bs : List β) (i : ℕ) (a : α) (b : β),
      as[i]? = some a → bs[i]? = some b →
      (List.zipWith f as bs)[i]? = some (f a b) := by
  intro as
  induction as with
  | nil => intro bs i a b h; simp at h
  | cons x t ih =>
    intro bs i a b ha hb
    cases bs with
    | nil => simp at hb
    | cons y u =>
      cases i with
      | zero =>
        simp only [List.getElem?_cons_zero, Option.some.injEq] at ha hb
        simp [ha, hb]
      | succ j =>
        simp only [List.getElem?_cons_succ] at ha hb
        simpa using ih u j a b ha hb

lemma pctChange_prod (closes : List ℚ) (h : ∀ x ∈ closes, x ≠ 0) :
    ∀ a b, closes.head? = some a → closes.getLast? = some b →
      ((pctChange closes).map (fun r => 1 + r)).prod = b / a := by
  induction closes with
  | nil => intro a b ha; simp at ha
  | cons x t ih =>
    intro a b ha hb
    cases t with
    | nil =>
      simp only [List.head?_cons, Option.some.injEq] at ha
      simp only [List.getLast?_singleton, Option.some.injEq] at hb
      have hx : x ≠ 0 := h x (by simp)
      subst ha hb
      simp [pctChange, div_self hx]
    | cons y u =>
      have hx : x ≠ 0 := h x (by simp)
      have hy : y ≠ 0 := h y (by simp)
      simp only [List.head?_cons, Option.some.injEq] at ha
      subst ha
      have hb2 : (y :: u).getLast? = some b := by
        simpa [List.getLast?_cons_cons] using hb
      have ihv := ih (fun z hz => h z (by simp [hz])) y b rfl hb2
      have hstep : pctChange (x :: y :: u) = (y / x - 1) :: pctChange (y :: u) := rfl
      rw [hstep, List.map_cons, List.prod_cons, ihv]
      field_simp
      ring

/-! ### Claim theorems -/

/-- Claim C1: over an event window the cumulative abnormal return series built
by the engine (`(1 + residuals).cumprod() - 1`) equals, at every query bar,
the compounded product `Π(1 + abnormal_i) - 1` over the bars from the window
start to that bar, and compounding is associative across any interior split
point of a sub-window, exactly over the rationals. -/
theorem car_compound_and_assoc (rs : List ℚ) (a b c : ℕ)
    (hab : a ≤ b) (hbc : b ≤ c) (hc : c ≤ rs.length) :
    (∀ i, i < rs.length → (cumResiduals rs)[i]? = some (carWindow rs 0 (i + 1)))
    ∧ (1 + carWindow rs a b) * (1 + carWindow rs b c) - 1 = carWindow rs a c := by
  refine ⟨fun i hi => cumResiduals_getElem? rs i hi, ?_⟩
  unfold carWindow carVals
  have h1 : c - a = (b - a) + (c - b) := by omega
  have h2 : (rs.drop a).take (c - a)
      = (rs.drop a).take (b - a) ++ ((rs.drop a).drop (b - a)).take (c - b) := by
    rw [h1, List.take_add]
  have h3 : (rs.drop a).drop (b - a) = rs.drop b := by
    rw [List.drop_drop]; congr 1; omega
  rw [h2, h3, List.map_append, List.prod_append]
  ring

/-- Witness for C1 at the abnormal-return window `[1/2, 1/3, -1/4]` split at
the interior point 1. -/
theorem car_compound_and_assoc_witness :
    (0 : ℕ) ≤ 1 ∧ (1 : ℕ) ≤ 3 ∧ (3 : ℕ) ≤ [(1 : ℚ)/2, 1/3, -1/4].length
    ∧ (1 + carWindow [(1 : ℚ)/2, 1/3, -1/4] 0 1)
        * (1 + carWindow [(1 : ℚ)/2, 1/3, -1/4] 1 3) - 1
      = carWindow [(1 : ℚ)/2, 1/3, -1/4] 0 3 :=
  ⟨by decide, by decide, by decide,
    (car_compound_and_assoc [(1 : ℚ)/2, 1/3, -1/4] 0 1 3
      (by decide) (by decide) (by decide)).2⟩

/-- Claim C2: for a price series of N positive closes, `pct_change().dropna()`
has exactly N − 1 entries, entry i equals `close[i+1]/close[i] - 1`,
compounding all entries reproduces `close[N-1]/close[0] - 1`, and a series of
length 0 or 1 yields the empty return series, not an error. -/
theorem pct_change_spec (closes : List ℚ) (hpos : ∀ x ∈ closes, 0 < x) :
    (pctChange closes).length = closes.length - 1
    ∧ (∀ i a b, closes[i]? = some a → closes[i + 1]? = some b →
        (pctChange closes)[i]? = some (b / a - 1))
    ∧ (∀ a b, closes.head? = some a → closes.getLast? = some b →
        ((pctChange closes).map (fun r => 1 + r)).prod = b / a)
    ∧ (closes.length ≤ 1 → pctChange closes = []) := by
  refine ⟨?_, ?_, ?_, ?_⟩
  · simp only [pctChange, List.length_zipWith, List.length_tail]
    omega
  · intro i a b ha hb
    have htail : closes.tail[i]? = some b := by
      rw [List.getElem?_tail]; exact hb
    exact zipWith_getElem? _ closes closes.tail i a b ha htail
  · exact pctChange_prod closes (fun x hx => ne_of_gt (hpos x hx))
  · intro hlen
    match closes, hlen with
    | [], _ => rfl
    | [x], _ => rfl

/-- Witness for C2 at the close series `[2, 3, 6]`. -/
theorem pct_change_spec_witness :
    [(2 : ℚ), 3, 6].all (fun x => decide (0 < x)) = true
    ∧ (pctChange [(2 : ℚ), 3, 6]).length = [(2 : ℚ), 3, 6].length - 1 :=
  ⟨by decide, (pct_change_spec [(2 : ℚ), 3, 6] (by decide)).1⟩

lemma length_filter_lt_add_count (v : ℚ) :
    ∀ (l : List ℚ), (∀ x ∈ l, x ≤ v) →
      (l.filter (fun x => decide (x < v))).length + l.count v = l.length := by
  intro l
  induction l with
  | nil => intro _; rfl
  | cons x t ih =>
    intro h
    have hx : x ≤ v := h x (by simp)
    have ht := ih (fun z hz => h z (by simp [hz]))
    rw [List.count_cons]
    by_cases hlt : x < v
    · rw [List.filter_cons_of_pos (by simpa using hlt)]
      have hxe : (x == v) = false := beq_eq_false_iff_ne.mpr (ne_of_lt hlt)
      rw [hxe]
      simp only [List.length_cons, Bool.false_eq_true, if_false]
      omega
    · have heq : x = v := le_antisymm hx (not_lt.mp hlt)
      rw [List.filter_cons_of_neg (by simpa using hlt)]
      subst heq
      simp only [beq_self_eq_true, if_true, List.length_cons]
      omega

/-- Claim C5 counterexample: in the two-day baseline sample [1, 1] the event
value 1 equals the sample maximum, yet its strictly-less percentile rank is 0
and not 100·(n−1)/n = 50. -/
theorem percentile_rank_tied_max :
    percentileRank [1, 1] 1 = 0 ∧ (0 : ℚ) ≠ 100 * (2 - 1) / 2 := by
  with_unfolding_all decide

/-- Claim C5 (amended): the percentile rank is 100 times the fraction of
baseline statistics strictly below v; a v at or below every baseline value
gets percentile 0; a v equal to the sample maximum gets 100·(n − m)/n where
m is the multiplicity of the maximum, hence 100·(n − 1)/n exactly when the
maximum is attained once. -/
theorem percentile_rank_spec (sample : List ℚ) (v : ℚ) (hne : sample ≠ []) :
    percentileRank sample v
        = 100 * ((sample.filter (fun x => decide (x < v))).length : ℚ) / sample.length
    ∧ ((∀ x ∈ sample, v ≤ x) → percentileRank sample v = 0)
    ∧ ((∀ x ∈ sample, x ≤ v) →
        percentileRank sample v
          = 100 * ((sample.length : ℚ) - (sample.count v : ℚ)) / sample.length)
    ∧ ((∀ x ∈ sample, x ≤ v) → sample.count v = 1 →
        percentileRank sample v = 100 * ((sample.length : ℚ) - 1) / sample.length) := by
  have hmain : ∀ h : ∀ x ∈ sample, x ≤ v,
      percentileRank sample v
        = 100 * ((sample.length : ℚ) - (sample.count v : ℚ)) / sample.length := by
    intro h
    have hsum := length_filter_lt_add_count v sample h
    have hcle : sample.count v ≤ sample.length := List.count_le_length v sample
    have hflen : (sample.filter (fun x => decide (x < v))).length
        = sample.length - sample.count v := by omega
    unfold percentileRank
    rw [hflen]
    rw [Nat.cast_sub hcle]
    ring
  refine ⟨by unfold percentileRank; ring, ?_, hmain, ?_⟩
  · intro h
    have hnil : sample.filter (fun x => decide (x < v)) = [] := by
      apply List.filter_eq_nil_iff.mpr
      intro a ha
      simpa using not_lt.mpr (h a ha)
    unfold percentileRank
    rw [hnil]
    simp
  · intro h hcount
    rw [hmain h, hcount]
    norm_num

/-- Witness for the amended C5 at the baseline sample [1, 2, 3]. -/
theorem percentile_rank_spec_witness :
    ([(1 : ℚ), 2, 3] ≠ [])
    ∧ percentileRank [(1 : ℚ), 2, 3] 3
        = 100 * (([(1 : ℚ), 2, 3].filter (fun x => decide (x < 3))).length : ℚ)
            / [(1 : ℚ), 2, 3].length :=
  ⟨by decide, (percentile_rank_spec [(1 : ℚ), 2, 3] 3 (by decide)).1⟩

/-- Claim C6 counterexample: a daily beta fit with only 29 overlapping dates
returns the NaN float sentinel (an ordinary value of the numeric return type,
modelled `none`), and a 99-bar intraday training window makes the factor-model
fit return None after printing — neither path raises or returns a typed
InsufficientData error. -/
theorem insufficient_data_no_typed_error :
    calculate_beta ((List.range 29).map (fun i => ((i, (1 : ℚ)) : ℕ × ℚ)))
        ((List.range 29).map (fun i => ((i, (1 : ℚ)) : ℕ × ℚ))) = FloatResult.nan
    ∧ runFactorModelFit (List.replicate 99 (1 : ℚ))
        (List.replicate 99 1) (List.replicate 99 1) = none := by
  constructor
  · decide
  · rfl

/-- Claim C6 (amended): below the stated minima (100 intraday training bars,
30 overlapping daily bars) no fitted model is produced, but the failure is
signalled by sentinel values — None for the intraday fit, NaN for the daily
beta — not by a typed InsufficientData error. -/
theorem insufficient_data_sentinels (asset market : Series) (y x1 x2 : List ℚ)
    (h30 : (interIdx (seriesDates asset) (seriesDates market)).length < 30)
    (h100 : y.length < 100) :
    calculate_beta asset market = FloatResult.nan ∧ runFactorModelFit y x1 x2 = none := by
  constructor
  · simp [calculate_beta, h30]
  · simp [runFactorModelFit, h100]

/-- Witness for the amended C6 at empty inputs. -/
theorem insufficient_data_sentinels_witness :
    (interIdx (seriesDates ([] : Series)) (seriesDates ([] : Series))).length < 30
    ∧ ([] : List ℚ).length < 100
    ∧ (calculate_beta ([] : Series) ([] : Series) = FloatResult.nan
        ∧ runFactorModelFit ([] : List ℚ) [] [] = none) :=
  ⟨by decide, by decide, insufficient_data_sentinels [] [] [] [] [] (by decide) (by decide)⟩

/-- Claim C4 counterexample: two inputs whose event date is absent from both
return indexes yet the analysis does not return None, aborting a batch loop.
First, a 1-bar target with a 2-bar benchmark: the boolean history mask built
from the target index is applied to the differently sized benchmark series
(src/models.py line 79, outside the try block), so numpy's IndexError
propagates.  Second, equal-length 31-day series whose benchmark returns are
all zero: `stats.linregress` raises ValueError on the constant regressor
inside `calculate_beta`, and the call at line 81 also sits outside the try
block, so that exception propagates too — before the missing event date 99
is ever checked. -/
theorem beta_missing_date_raises :
    ([((0 : ℕ), (1 : ℚ)/10)].all (fun p => p.1 != 5) = true)
    ∧ ([((0 : ℕ), (1 : ℚ)/10), (1, 1/5)].all (fun p => p.1 != 5) = true)
    ∧ runBetaCore [((0 : ℕ), (1 : ℚ)/10)] [((0 : ℕ), (1 : ℚ)/10), (1, 1/5)] 5
        = BetaOutcome.raised
    ∧ exRampT.length = exFlatM.length
    ∧ (exRampT.all (fun p => p.1 != 99) = true)
    ∧ (exFlatM.all (fun p => p.1 != 99) = true)
    ∧ runBetaCore exRampT exFlatM 99 = BetaOutcome.raised :=
  ⟨by decide, by decide, rfl, by decide, by decide, by decide,
   by with_unfolding_all rfl⟩

/-- Claim C4 (amended): provided the target and benchmark return series have
equal length — so the positional history mask is applicable — and the beta
computation on the pre-event histories does not itself raise (the benchmark
history is not a constant regressor on a ≥30-date overlap), an event date
absent from either index makes the analysis return None and nothing is
raised. -/
theorem beta_missing_date_no_result (target market : Series) (d : ℕ)
    (hlen : target.length = market.length)
    (hnr : calculate_beta (maskSelect (histMask target d) target)
            (maskSelect (histMask target d) market) ≠ FloatResult.raised)
    (habs : (∀ p ∈ target, p.1 ≠ d) ∨ (∀ p ∈ market, p.1 ≠ d)) :
    runBetaCore target market d = BetaOutcome.noResult := by
  simp only [runBetaCore]
  rw [if_neg (not_not_intro hlen)]
  have hfind : target.find? (fun p => p.1 == d) = none
      ∨ market.find? (fun p => p.1 == d) = none := by
    rcases habs with h | h
    · exact Or.inl (List.find?_eq_none.mpr (fun p hp => by simpa using h p hp))
    · exact Or.inr (List.find?_eq_none.mpr (fun p hp => by simpa using h p hp))
  cases hcb : calculate_beta (maskSelect (histMask target d) target)
      (maskSelect (histMask target d) market) with
  | raised => exact absurd hcb hnr
  | nan =>
    rcases hfind with h | h
    · rw [h]
    · cases htf : target.find? (fun p => p.1 == d) with
      | none => rfl
      | some tp => rw [h]
  | val b =>
    rcases hfind with h | h
    · rw [h]
    · cases htf : target.find? (fun p => p.1 == d) with
      | none => rfl
      | some tp => rw [h]

/-- Witness for the amended C4: equal-length series, a beta computation that
does not raise (below-threshold overlap gives NaN), event date 5 absent. -/
theorem beta_missing_date_no_result_witness :
    ([((0 : ℕ), (1 : ℚ)/10)].length = [((1 : ℕ), (1 : ℚ)/5)].length)
    ∧ calculate_beta (maskSelect (histMask [((0 : ℕ), (1 : ℚ)/10)] 5) [((0 : ℕ), (1 : ℚ)/10)])
        (maskSelect (histMask [((0 : ℕ), (1 : ℚ)/10)] 5) [((1 : ℕ), (1 : ℚ)/5)])
        ≠ FloatResult.raised
    ∧ ([((0 : ℕ), (1 : ℚ)/10)].all (fun p => p.1 != 5) = true)
    ∧ runBetaCore [((0 : ℕ), (1 : ℚ)/10)] [((1 : ℕ), (1 : ℚ)/5)] 5
        = BetaOutcome.noResult :=
  ⟨rfl, by decide, by decide,
    beta_missing_date_no_result _ _ _ rfl (by decide) (Or.inl (by decide))⟩

lemma sampleVar_short (xs : List ℚ) (h : xs.length ≤ 1) : sampleVar xs = 0 := by
  match xs, h with
  | [], _ => simp [sampleVar]
  | [a], _ => norm_num [sampleVar, mean]

lemma runBetaCore_result (target market : Series) (d : ℕ) (b trv mrv : ℚ)
    (hlen : target.length = market.length)
    (hb : calculate_beta (maskSelect (histMask target d) target)
            (maskSelect (histMask target d) market) = FloatResult.val b)
    (ht : target.find? (fun p => p.1 == d) = some (d, trv))
    (hm : market.find? (fun p => p.1 == d) = some (d, mrv)) :
    runBetaCore target market d
      = BetaOutcome.result ⟨some b, trv, some (b * mrv), some (trv - b * mrv),
          if (residualsOf (maskSelect (histMask target d) target)
              (maskSelect (histMask target d) market) b).length ≤ 1 then FloatVal.nan
          else if sampleVar (residualsOf (maskSelect (histMask target d) target)
              (maskSelect (histMask target d) market) b) = 0 then zUndef (trv - b * mrv)
          else FloatVal.val (((trv - b * mrv : ℚ) : ℝ)
            / Real.sqrt ((sampleVar (residualsOf (maskSelect (histMask target d) target)
                (maskSelect (histMask target d) market) b) : ℚ) : ℝ))⟩ := by
  simp only [runBetaCore]
  rw [if_neg (not_not_intro hlen), hb, ht, hm]

/-- Claim C3: when the event date is present in both aligned daily return
series, the fitted beta is numeric and the historical residual deviation is
nonzero, the analyzer result satisfies expected = beta · benchmark event
return, abnormal = observed − expected, z = abnormal divided by the standard
deviation of the historical residuals target_t − beta·market_t over the
common history dates, and the forensics significance flag fires exactly when
|z| > 1.96. -/
theorem beta_event_fields (target market : Series) (d : ℕ) (b trv mrv : ℚ)
    (hlen : target.length = market.length)
    (hb : calculate_beta (maskSelect (histMask target d) target)
            (maskSelect (histMask target d) market) = FloatResult.val b)
    (ht : target.find? (fun p => p.1 == d) = some (d, trv))
    (hm : market.find? (fun p => p.1 == d) = some (d, mrv))
    (hv : sampleVar (residualsOf (maskSelect (histMask target d) target)
            (maskSelect (histMask target d) market) b) ≠ 0) :
    runBetaCore target market d
      = BetaOutcome.result ⟨some b, trv, some (b * mrv), some (trv - b * mrv),
          FloatVal.val (((trv - b * mrv : ℚ) : ℝ)
            / Real.sqrt ((sampleVar (residualsOf (maskSelect (histMask target d) target)
                (maskSelect (histMask target d) market) b) : ℚ) : ℝ))⟩
    ∧ (betaSignificant (runBetaCore target market d)
        ↔ 196 / 100 < |((trv - b * mrv : ℚ) : ℝ)
            / Real.sqrt ((sampleVar (residualsOf (maskSelect (histMask target d) target)
                (maskSelect (histMask target d) market) b) : ℚ) : ℝ)|) := by
  have hcard : ¬((residualsOf (maskSelect (histMask target d) target)
      (maskSelect (histMask target d) market) b).length ≤ 1) :=
    fun hle => hv (sampleVar_short _ hle)
  have h1 := runBetaCore_result target market d b trv mrv hlen hb ht hm
  rw [if_neg hcard, if_neg hv] at h1
  refine ⟨h1, ?_⟩
  rw [h1]
  exact Iff.rfl

/-- Witness for C3: a 30-day history with beta 309/155, event returns 5
(target) and 2 (benchmark). -/
theorem beta_event_fields_witness :
    (exTarget.length = exMarket.length)
    ∧ calculate_beta exHistT exHistM = FloatResult.val (309/155)
    ∧ exTarget.find? (fun p => p.1 == 30) = some (30, 5)
    ∧ exMarket.find? (fun p => p.1 == 30) = some (30, 2)
    ∧ sampleVar (residualsOf exHistT exHistM (309/155)) ≠ 0
    ∧ runBetaCore exTarget exMarket 30
        = BetaOutcome.result ⟨some (309/155), 5, some (309/155 * 2),
            some (5 - 309/155 * 2),
            FloatVal.val (((5 - 309/155 * 2 : ℚ) : ℝ)
              / Real.sqrt ((sampleVar (residualsOf exHistT exHistM (309/155)) : ℚ) : ℝ))⟩ :=
  ⟨by decide, by with_unfolding_all decide, by decide, by decide,
   by with_unfolding_all decide,
   (beta_event_fields exTarget exMarket 30 (309/155) 5 2
      (by decide) (by with_unfolding_all decide) (by decide) (by decide)
      (by with_unfolding_all decide)).1⟩

/-- Claim C7: a zero historical residual standard deviation (a residual
sample of at least two entries whose variance vanishes) yields an explicit
NaN/undefined z-score rather than an exception — calculate_z_score returns
its NaN marker, and the beta analysis still returns a full result whose
remaining fields are intact while the z-score is the float `abnormal / 0.0`
(+inf, −inf, or NaN by the sign of the abnormal return), never a finite
numeric z. -/
theorem zero_std_nan_z (x : ℚ) (history : List ℚ)
    (hhl : 2 ≤ history.length) (hv : sampleVar history = 0)
    (target market : Series) (d : ℕ) (b trv mrv : ℚ)
    (hlen : target.length = market.length)
    (hb : calculate_beta (maskSelect (histMask target d) target)
            (maskSelect (histMask target d) market) = FloatResult.val b)
    (ht : target.find? (fun p => p.1 == d) = some (d, trv))
    (hm : market.find? (fun p => p.1 == d) = some (d, mrv))
    (hcard : 2 ≤ (residualsOf (maskSelect (histMask target d) target)
            (maskSelect (histMask target d) market) b).length)
    (hz : sampleVar (residualsOf (maskSelect (histMask target d) target)
            (maskSelect (histMask target d) market) b) = 0) :
    calculate_z_score x history = none
    ∧ runBetaCore target market d
        = BetaOutcome.result ⟨some b, trv, some (b * mrv), some (trv - b * mrv),
            zUndef (trv - b * mrv)⟩
    ∧ (∀ zr : ℝ, zUndef (trv - b * mrv) ≠ FloatVal.val zr) := by
  refine ⟨?_, ?_, ?_⟩
  · have hs : sampleStd history = 0 := by
      unfold sampleStd
      rw [hv]
      simp
    simp only [calculate_z_score]
    rw [if_pos hs]
  · have h1 := runBetaCore_result target market d b trv mrv hlen hb ht hm
    rw [if_neg (by omega), if_pos hz] at h1
    exact h1
  · intro zr
    unfold zUndef
    by_cases ha1 : 0 < trv - b * mrv
    · simp [ha1]
    · by_cases ha2 : trv - b * mrv < 0
      · simp [ha1, ha2]
      · simp [ha1, ha2]

/-- Witness for C7: a constant two-point history, and a beta analysis whose
target equals its benchmark (a non-constant regressor, so linregress does
not raise) so every historical residual vanishes and the abnormal return is
zero, giving the NaN z. -/
theorem zero_std_nan_z_witness :
    2 ≤ [(5 : ℚ), 5].length
    ∧ sampleVar [(5 : ℚ), 5] = 0
    ∧ calculate_beta exHistI exHistI = FloatResult.val 1
    ∧ exIdent.find? (fun p => p.1 == 30) = some (30, 4)
    ∧ 2 ≤ (residualsOf exHistI exHistI 1).length
    ∧ sampleVar (residualsOf exHistI exHistI 1) = 0
    ∧ (calculate_z_score 7 [(5 : ℚ), 5] = none
        ∧ runBetaCore exIdent exIdent 30
            = BetaOutcome.result ⟨some 1, 4, some (1 * 4), some (4 - 1 * 4),
                zUndef (4 - 1 * 4)⟩
        ∧ (∀ zr : ℝ, zUndef (4 - 1 * 4) ≠ FloatVal.val zr)) :=
  ⟨by decide, by with_unfolding_all decide, by with_unfolding_all decide, by decide,
   by with_unfolding_all decide, by with_unfolding_all decide,
   zero_std_nan_z 7 [(5 : ℚ), 5] (by decide) (by with_unfolding_all decide)
     exIdent exIdent 30 1 4 4
     rfl (by with_unfolding_all decide) (by decide) (by decide)
     (by with_unfolding_all decide) (by with_unfolding_all decide)⟩

lemma interIdx_mem {xs ys : List ℕ} {t : ℕ} (h : t ∈ interIdx xs ys) :
    t ∈ xs ∧ t ∈ ys := by
  unfold interIdx at h
  have h2 := List.mem_filter.mp h
  exact ⟨h2.1, by simpa using h2.2⟩

lemma reindexTo_dates (idx : List ℕ) (s : Series)
    (h : ∀ t ∈ idx, t ∈ seriesDates s) :
    seriesDates (reindexTo idx s) = idx := by
  induction idx with
  | nil => rfl
  | cons t r ih =>
    have ht : t ∈ seriesDates s := h t (by simp)
    obtain ⟨p, hp, hpt⟩ := List.mem_map.mp ht
    have hfind : (s.find? (fun q => q.1 == t)).isSome := by
      apply List.find?_isSome.mpr
      exact ⟨p, hp, by simp [hpt]⟩
    obtain ⟨q, hq⟩ := Option.isSome_iff_exists.mp hfind
    have hstep : reindexTo (t :: r) s = (t, q.2) :: reindexTo r s := by
      simp [reindexTo, List.filterMap_cons, hq]
    have ihv := ih (fun u hu => h u (by simp [hu]))
    rw [hstep]
    simp only [seriesDates, List.map_cons] at ihv ⊢
    rw [ihv]

lemma reindexTo_length (idx : List ℕ) (s : Series)
    (h : ∀ t ∈ idx, t ∈ seriesDates s) :
    (reindexTo idx s).length = idx.length := by
  have h2 := congrArg List.length (reindexTo_dates idx s h)
  simpa [seriesDates] using h2

lemma interIdx_length_le_right {xs ys : List ℕ} (h : xs.Nodup) :
    (interIdx xs ys).length ≤ ys.length := by
  have hnd : (interIdx xs ys).Nodup := h.filter _
  have hsub : interIdx xs ys ⊆ ys := fun t htm => (interIdx_mem htm).2
  exact (hnd.subperm hsub).length_le

/-- Claim C8: reindexing series to the intersection of their timestamp sets
yields outputs that all have equal length, identical timestamps position by
position, and length at most that of every input — both for the two-series
alignment of the spread placebo and for the three-series alignment of the
factor model. Nodup indexes reflect the deduplication the loader performs
before alignment. -/
theorem align_intersection_spec (A B C : Series)
    (hA : (seriesDates A).Nodup) (hB : (seriesDates B).Nodup)
    (hC : (seriesDates C).Nodup) :
    ((reindexTo (interIdx (seriesDates A) (seriesDates B)) A).length
        = (reindexTo (interIdx (seriesDates A) (seriesDates B)) B).length
      ∧ seriesDates (reindexTo (interIdx (seriesDates A) (seriesDates B)) A)
        = seriesDates (reindexTo (interIdx (seriesDates A) (seriesDates B)) B)
      ∧ (reindexTo (interIdx (seriesDates A) (seriesDates B)) A).length ≤ A.length
      ∧ (reindexTo (interIdx (seriesDates A) (seriesDates B)) A).length ≤ B.length)
    ∧ ((reindexTo (interIdx (interIdx (seriesDates A) (seriesDates B)) (seriesDates C)) A).length
        = (reindexTo (interIdx (interIdx (seriesDates A) (seriesDates B)) (seriesDates C)) B).length
      ∧ (reindexTo (interIdx (interIdx (seriesDates A) (seriesDates B)) (seriesDates C)) B).length
        = (reindexTo (interIdx (interIdx (seriesDates A) (seriesDates B)) (seriesDates C)) C).length
      ∧ seriesDates (reindexTo (interIdx (interIdx (seriesDates A) (seriesDates B)) (seriesDates C)) A)
        = seriesDates (reindexTo (interIdx (interIdx (seriesDates A) (seriesDates B)) (seriesDates C)) B)
      ∧ seriesDates (reindexTo (interIdx (interIdx (seriesDates A) (seriesDates B)) (seriesDates C)) B)
        = seriesDates (reindexTo (interIdx (interIdx (seriesDates A) (seriesDates B)) (seriesDates C)) C)
      ∧ (reindexTo (interIdx (interIdx (seriesDates A) (seriesDates B)) (seriesDates C)) A).length ≤ A.length
      ∧ (reindexTo (interIdx (interIdx (seriesDates A) (seriesDates B)) (seriesDates C)) A).length ≤ B.length
      ∧ (reindexTo (interIdx (interIdx (seriesDates A) (seriesDates B)) (seriesDates C)) A).length ≤ C.length) := by
  have hlenA : A.length = (seriesDates A).length := by simp [seriesDates]
  have hlenB : B.length = (seriesDates B).length := by simp [seriesDates]
  have hlenC : C.length = (seriesDates C).length := by simp [seriesDates]
  have hm2A : ∀ t ∈ interIdx (seriesDates A) (seriesDates B), t ∈ seriesDates A :=
    fun t ht => (interIdx_mem ht).1
  have hm2B : ∀ t ∈ interIdx (seriesDates A) (seriesDates B), t ∈ seriesDates B :=
    fun t ht => (interIdx_mem ht).2
  have hm3 : ∀ t ∈ interIdx (interIdx (seriesDates A) (seriesDates B)) (seriesDates C),
      t ∈ seriesDates A ∧ t ∈ seriesDates B ∧ t ∈ seriesDates C := by
    intro t ht
    obtain ⟨ht2, htC⟩ := interIdx_mem ht
    obtain ⟨htA, htB⟩ := interIdx_mem ht2
    exact ⟨htA, htB, htC⟩
  have hd2A := reindexTo_dates _ A hm2A
  have hd2B := reindexTo_dates _ B hm2B
  have hl2A := reindexTo_length _ A hm2A
  have hl2B := reindexTo_length _ B hm2B
  have hd3A := reindexTo_dates _ A (fun t ht => (hm3 t ht).1)
  have hd3B := reindexTo_dates _ B (fun t ht => (hm3 t ht).2.1)
  have hd3C := reindexTo_dates _ C (fun t ht => (hm3 t ht).2.2)
  have hl3A := reindexTo_length _ A (fun t ht => (hm3 t ht).1)
  have hl3B := reindexTo_length _ B (fun t ht => (hm3 t ht).2.1)
  have hl3C := reindexTo_length _ C (fun t ht => (hm3 t ht).2.2)
  have hc2A : (interIdx (seriesDates A) (seriesDates B)).length ≤ (seriesDates A).length :=
    List.length_filter_le _ _
  have hc2B : (interIdx (seriesDates A) (seriesDates B)).length ≤ (seriesDates B).length :=
    interIdx_length_le_right hA
  have hc3le : (interIdx (interIdx (seriesDates A) (seriesDates B)) (seriesDates C)).length
      ≤ (interIdx (seriesDates A) (seriesDates B)).length := List.length_filter_le _ _
  have hc3C : (interIdx (interIdx (seriesDates A) (seriesDates B)) (seriesDates C)).length
      ≤ (seriesDates C).length := interIdx_length_le_right (hA.filter _)
  refine ⟨⟨?_, ?_, ?_, ?_⟩, ?_, ?_, ?_, ?_, ?_, ?_, ?_⟩
  · rw [hl2A, hl2B]
  · rw [hd2A, hd2B]
  · rw [hl2A, hlenA]; exact hc2A
  · rw [hl2A, hlenB]; exact hc2B
  · rw [hl3A, hl3B]
  · rw [hl3B, hl3C]
  · rw [hd3A, hd3B]
  · rw [hd3B, hd3C]
  · rw [hl3A, hlenA]; exact le_trans hc3le hc2A
  · rw [hl3A, hlenB]; exact le_trans hc3le hc2B
  · rw [hl3A, hlenC]; exact hc3C

/-- Witness for C8 on three small series with deduplicated indexes. -/
theorem align_intersection_spec_witness :
    (seriesDates [((1 : ℕ), (1 : ℚ)), (2, 2)]).Nodup
    ∧ (seriesDates [((2 : ℕ), (5 : ℚ))]).Nodup
    ∧ (seriesDates [((2 : ℕ), (7 : ℚ)), (3, 8)]).Nodup
    ∧ (reindexTo (interIdx (seriesDates [((1 : ℕ), (1 : ℚ)), (2, 2)])
          (seriesDates [((2 : ℕ), (5 : ℚ))])) [((1 : ℕ), (1 : ℚ)), (2, 2)]).length
      = (reindexTo (interIdx (seriesDates [((1 : ℕ), (1 : ℚ)), (2, 2)])
          (seriesDates [((2 : ℕ), (5 : ℚ))])) [((2 : ℕ), (5 : ℚ))]).length :=
  ⟨by decide, by decide, by decide,
   (align_intersection_spec [((1 : ℕ), (1 : ℚ)), (2, 2)] [((2 : ℕ), (5 : ℚ))]
      [((2 : ℕ), (7 : ℚ)), (3, 8)] (by decide) (by decide) (by decide)).1.1⟩

lemma cumResiduals_length (xs : List ℚ) : (cumResiduals xs).length = xs.length := by
  simp [cumResiduals, cumprod, cumprodFrom_length]

lemma zip_getLast2 {α β : Type} (as : List α) (bs : List β) (i : ℕ)
    (hi : i + 1 = as.length) (a : α) (b : β)
    (ha : as[i]? = some a) (hb : bs[i]? = some b)
    (hlen : as.length = bs.length) :
    (as.zip bs).getLast? = some (a, b) := by
  rw [List.getLast?_eq_getElem?]
  have hlz : (as.zip bs).length = as.length := by
    rw [List.length_zip, hlen, min_self]
  rw [hlz]
  have hii : as.length - 1 = i := by omega
  rw [hii]
  exact zipWith_getElem? Prod.mk as bs i a b ha hb

/-- Claim C9: for an event window with bars strictly before and bars at or
after the boundary timestamp t*, the engine reports CAR over the bars before
t*, CAR over the whole window, and an unexplained surge equal to their
difference; the surge equals (1 + CAR_pre) times the CAR compounded over
exactly the bars at or after t*, so it captures precisely the abnormal
movement after the boundary. -/
theorem leak_report_spec (pre post : Series) (tstar : ℕ)
    (hpre : pre ≠ []) (hpost : post ≠ [])
    (h1 : ∀ p ∈ pre, p.1 < tstar) (h2 : ∀ p ∈ post, tstar ≤ p.1) :
    leakReport (pre ++ post) tstar
      = some (carVals (seriesVals pre), carVals (seriesVals (pre ++ post)),
          carVals (seriesVals (pre ++ post)) - carVals (seriesVals pre))
    ∧ carVals (seriesVals (pre ++ post)) - carVals (seriesVals pre)
      = (1 + carVals (seriesVals pre)) * carVals (seriesVals post) := by
  have hv : seriesVals (pre ++ post) = seriesVals pre ++ seriesVals post := by
    simp [seriesVals]
  have hd : seriesDates (pre ++ post) = seriesDates pre ++ seriesDates post := by
    simp [seriesDates]
  refine ⟨?_, ?_⟩
  swap
  · rw [hv]
    unfold carVals
    rw [List.map_append, List.prod_append]
    ring
  · set v := seriesVals (pre ++ post) with hvdef
    set cr := cumResiduals v with hcdef
    have hn1pos : 0 < pre.length := List.length_pos.mpr hpre
    have hn2pos : 0 < post.length := List.length_pos.mpr hpost
    have hvlen : v.length = pre.length + post.length := by
      simp [hvdef, seriesVals]
    have hclen : cr.length = pre.length + post.length := by
      rw [hcdef, cumResiduals_length, hvlen]
    have hd1len : (seriesDates pre).length = pre.length := by simp [seriesDates]
    have hd2len : (seriesDates post).length = post.length := by simp [seriesDates]
    have hctake : (cr.take pre.length).length = pre.length := by
      rw [List.length_take]
      omega
    have hcsplit : cr.take pre.length ++ cr.drop pre.length = cr := List.take_append_drop _ _
    have hz : carSeries (pre ++ post)
        = (seriesDates pre).zip (cr.take pre.length)
          ++ (seriesDates post).zip (cr.drop pre.length) := by
      unfold carSeries
      rw [hd, ← hvdef, ← hcdef]
      conv_lhs => rw [← hcsplit]
      exact List.zip_append (by rw [hd1len, hctake])
    -- pre block satisfies (· < tstar), post block violates it
    have hmem1 : ∀ q ∈ (seriesDates pre).zip (cr.take pre.length), q.1 < tstar := by
      intro q hq
      have hq1 : q.1 ∈ seriesDates pre := (List.of_mem_zip hq).1
      obtain ⟨p, hp, hpq⟩ := List.mem_map.mp hq1
      exact hpq ▸ h1 p hp
    have hmem2 : ∀ q ∈ (seriesDates post).zip (cr.drop pre.length), tstar ≤ q.1 := by
      intro q hq
      have hq1 : q.1 ∈ seriesDates post := (List.of_mem_zip hq).1
      obtain ⟨p, hp, hpq⟩ := List.mem_map.mp hq1
      exact hpq ▸ h2 p hp
    have hfilter_lt : (carSeries (pre ++ post)).filter (fun p => decide (p.1 < tstar))
        = (seriesDates pre).zip (cr.take pre.length) := by
      rw [hz, List.filter_append]
      rw [List.filter_eq_self.mpr (fun q hq => by simpa using hmem1 q hq)]
      rw [List.filter_eq_nil_iff.mpr (fun q hq => by simpa using not_lt.mpr (hmem2 q hq))]
      simp
    have hfilter_ge : (carSeries (pre ++ post)).filter (fun p => decide (tstar ≤ p.1))
        = (seriesDates post).zip (cr.drop pre.length) := by
      rw [hz, List.filter_append]
      rw [List.filter_eq_nil_iff.mpr (fun q hq => by simpa using not_le.mpr (hmem1 q hq))]
      rw [List.filter_eq_self.mpr (fun q hq => by simpa using hmem2 q hq)]
      simp
    have hpostlen : ((seriesDates post).zip (cr.drop pre.length)).length = post.length := by
      rw [List.length_zip, hd2len, List.length_drop, hclen]
      omega
    have hpostne : ((carSeries (pre ++ post)).filter
        (fun p => decide (tstar ≤ p.1))).isEmpty = false := by
      rw [hfilter_ge]
      rw [List.isEmpty_eq_false_iff_exists_mem]
      have : 0 < ((seriesDates post).zip (cr.drop pre.length)).length := by omega
      obtain ⟨q, hq⟩ := List.exists_mem_of_length_pos this
      exact ⟨q, hq⟩
    -- last element of the pre block
    have hi1 : pre.length - 1 + 1 = pre.length := by omega
    obtain ⟨dl, hdl⟩ : ∃ a, (seriesDates pre)[pre.length - 1]? = some a := by
      have hlt : pre.length - 1 < (seriesDates pre).length := by omega
      exact ⟨_, List.getElem?_eq_getElem hlt⟩
    have hcget : cr[pre.length - 1]? = some (carWindow v 0 pre.length) := by
      have := cumResiduals_getElem? v (pre.length - 1) (by omega)
      rw [← hcdef] at this
      rw [this, hi1]
    have hcw1 : carWindow v 0 pre.length = carVals (seriesVals pre) := by
      unfold carWindow
      rw [hv]
      have hlen1 : pre.length = (seriesVals pre).length := by simp [seriesVals]
      rw [List.drop_zero, Nat.sub_zero, hlen1, List.take_left]
    have hctakeget : (cr.take pre.length)[pre.length - 1]? = some (carVals (seriesVals pre)) := by
      rw [List.getElem?_take_of_lt (by omega)]
      rw [hcget, hcw1]
    have hlast_pre : ((seriesDates pre).zip (cr.take pre.length)).getLast?
        = some (dl, carVals (seriesVals pre)) := by
      apply zip_getLast2 _ _ (pre.length - 1) (by rw [hd1len]; omega) _ _ hdl hctakeget
      rw [hd1len, hctake]
    -- last element of the whole series
    have hdalllen : (seriesDates (pre ++ post)).length = pre.length + post.length := by
      simp [seriesDates]
    have hiall : pre.length + post.length - 1 + 1 = pre.length + post.length := by omega
    obtain ⟨dl2, hdl2⟩ : ∃ a,
        (seriesDates (pre ++ post))[pre.length + post.length - 1]? = some a := by
      have hlt : pre.length + post.length - 1 < (seriesDates (pre ++ post)).length := by omega
      exact ⟨_, List.getElem?_eq_getElem hlt⟩
    have hcallget : cr[pre.length + post.length - 1]? = some (carVals v) := by
      have := cumResiduals_getElem? v (pre.length + post.length - 1) (by omega)
      rw [← hcdef] at this
      rw [this, hiall]
      congr 1
      unfold carWindow
      rw [List.drop_zero, Nat.sub_zero, ← hvlen, List.take_length]
    have hlast_all : (carSeries (pre ++ post)).getLast? = some (dl2, carVals v) := by
      unfold carSeries
      rw [← hvdef, ← hcdef]
      apply zip_getLast2 _ _ (pre.length + post.length - 1)
        (by omega) _ _ hdl2 hcallget
      rw [hdalllen, hclen]
    -- assemble
    simp only [leakReport]
    rw [hpostne]
    simp only [Bool.false_eq_true, if_false]
    rw [hfilter_lt, hlast_pre, hlast_all]

/-- Witness for C9: one bar before the boundary 2 and one after it. -/
theorem leak_report_spec_witness :
    ([((1 : ℕ), (1 : ℚ)/2)] ≠ []) ∧ ([((3 : ℕ), (1 : ℚ)/4)] ≠ [])
    ∧ leakReport ([((1 : ℕ), (1 : ℚ)/2)] ++ [((3 : ℕ), (1 : ℚ)/4)]) 2
      = some (carVals (seriesVals [((1 : ℕ), (1 : ℚ)/2)]),
          carVals (seriesVals ([((1 : ℕ), (1 : ℚ)/2)] ++ [((3 : ℕ), (1 : ℚ)/4)])),
          carVals (seriesVals ([((1 : ℕ), (1 : ℚ)/2)] ++ [((3 : ℕ), (1 : ℚ)/4)]))
            - carVals (seriesVals [((1 : ℕ), (1 : ℚ)/2)])) :=
  ⟨by decide, by decide,
   (leak_report_spec [((1 : ℕ), (1 : ℚ)/2)] [((3 : ℕ), (1 : ℚ)/4)] 2
      (by decide) (by decide) (by decide) (by decide)).1⟩

lemma le_foldl_max : ∀ (t : List ℚ) (a : ℚ), a ≤ t.foldl max a := by
  intro t
  induction t with
  | nil => intro a; simp
  | cons z u ih =>
    intro a
    rw [List.foldl_cons]
    exact le_trans (le_max_left a z) (ih (max a z))

lemma mem_le_foldl_max : ∀ (t : List ℚ) (a x : ℚ), x ∈ t → x ≤ t.foldl max a := by
  intro t
  induction t with
  | nil => intro a x hx; simp at hx
  | cons z u ih =>
    intro a x hx
    rw [List.foldl_cons]
    rcases List.mem_cons.mp hx with h | h
    · subst h
      exact le_trans (le_max_right a x) (le_foldl_max u (max a x))
    · exact ih (max a z) x h

lemma listMax_ge {xs : List ℚ} {x s : ℚ} (hx : x ∈ xs) (h : listMax xs = some s) :
    x ≤ s := by
  cases xs with
  | nil => simp at hx
  | cons y t =>
    simp only [listMax, Option.some.injEq] at h
    subst h
    rcases List.mem_cons.mp hx with h | h
    · subst h
      exact le_foldl_max t x
    · exact mem_le_foldl_max t y x h

lemma dayStat_eq (xleDay oilDay : Series) (s : ℚ)
    (h : dayStat xleDay oilDay = some s) :
    listMax (daySpread xleDay oilDay) = some s
    ∧ 30 ≤ (interIdx (seriesDates xleDay) (seriesDates oilDay)).length := by
  unfold dayStat at h
  by_cases h1 : xleDay.isEmpty ∨ oilDay.isEmpty
  · rw [if_pos h1] at h
    exact absurd h (by simp)
  · rw [if_neg h1] at h
    by_cases h2 : (interIdx (seriesDates xleDay) (seriesDates oilDay)).length < 30
    · rw [if_pos h2] at h
      exact absurd h (by simp)
    · rw [if_neg h2] at h
      exact ⟨h, by omega⟩

lemma daySpread_head (xleDay oilDay : Series)
    (hx : ∀ p ∈ xleDay, 0 < p.2) (ho : ∀ p ∈ oilDay, 0 < p.2)
    (hlen : 0 < (interIdx (seriesDates xleDay) (seriesDates oilDay)).length) :
    (daySpread xleDay oilDay).head? = some 0 := by
  obtain ⟨t, rest, hcommon⟩ : ∃ t rest,
      interIdx (seriesDates xleDay) (seriesDates oilDay) = t :: rest := by
    cases hcm : interIdx (seriesDates xleDay) (seriesDates oilDay) with
    | nil => rw [hcm] at hlen; simp at hlen
    | cons t rest => exact ⟨t, rest, rfl⟩
  have htmem : t ∈ interIdx (seriesDates xleDay) (seriesDates oilDay) := by
    rw [hcommon]; simp
  obtain ⟨htx, hto⟩ := interIdx_mem htmem
  have hfx : (xleDay.find? (fun p => p.1 == t)).isSome := by
    apply List.find?_isSome.mpr
    obtain ⟨p, hp, hpt⟩ := List.mem_map.mp htx
    exact ⟨p, hp, by simp [hpt]⟩
  obtain ⟨qx, hqx⟩ := Option.isSome_iff_exists.mp hfx
  have hqxpos : 0 < qx.2 := hx qx (List.mem_of_find?_eq_some hqx)
  have hfo : (oilDay.find? (fun p => p.1 == t)).isSome := by
    apply List.find?_isSome.mpr
    obtain ⟨p, hp, hpt⟩ := List.mem_map.mp hto
    exact ⟨p, hp, by simp [hpt]⟩
  obtain ⟨qo, hqo⟩ := Option.isSome_iff_exists.mp hfo
  have hqopos : 0 < qo.2 := ho qo (List.mem_of_find?_eq_some hqo)
  have hrx : reindexTo (t :: rest) xleDay = (t, qx.2) :: reindexTo rest xleDay := by
    simp [reindexTo, List.filterMap_cons, hqx]
  have hro : reindexTo (t :: rest) oilDay = (t, qo.2) :: reindexTo rest oilDay := by
    simp [reindexTo, List.filterMap_cons, hqo]
  simp only [daySpread]
  rw [hcommon, hrx, hro]
  simp only [seriesVals, List.map_cons, normalizeFirst, List.zipWith_cons_cons,
    List.head?_cons, Option.some.injEq]
  rw [div_self (ne_of_gt hqxpos), div_self (ne_of_gt hqopos)]
  ring

/-- Claim C10: every baseline day admitted to the spread placebo (nonempty
slices with at least 30 aligned bars) has both series divided by their first
aligned close, so its normalized spread is exactly 0 at the first bar; the
per-day max-spread statistic is therefore ≥ 0 on every admitted day, and
every element of the collected SampleDistribution (scaled to percent) is
non-negative. The positivity hypothesis is the data-model invariant
close > 0. -/
theorem placebo_distribution_nonneg (days : List (Series × Series))
    (hpos : ∀ dp ∈ days, (∀ p ∈ dp.1, 0 < p.2) ∧ (∀ p ∈ dp.2, 0 < p.2)) :
    (∀ dp ∈ days, ∀ s, dayStat dp.1 dp.2 = some s →
      ((daySpread dp.1 dp.2).head? = some 0 ∧ 0 ≤ s))
    ∧ (∀ w ∈ placeboDistribution days, 0 ≤ w) := by
  have hday : ∀ dp ∈ days, ∀ s, dayStat dp.1 dp.2 = some s →
      ((daySpread dp.1 dp.2).head? = some 0 ∧ 0 ≤ s) := by
    intro dp hdp s hs
    obtain ⟨hmax, h30⟩ := dayStat_eq dp.1 dp.2 s hs
    have hhead := daySpread_head dp.1 dp.2 (hpos dp hdp).1 (hpos dp hdp).2 (by omega)
    refine ⟨hhead, ?_⟩
    have h0mem : (0 : ℚ) ∈ daySpread dp.1 dp.2 := by
      cases hsp : daySpread dp.1 dp.2 with
      | nil => rw [hsp] at hhead; simp at hhead
      | cons a l =>
        rw [hsp] at hhead
        simp only [List.head?_cons, Option.some.injEq] at hhead
        rw [← hhead]
        simp
    exact listMax_ge h0mem hmax
  refine ⟨hday, ?_⟩
  intro w hw
  unfold placeboDistribution at hw
  obtain ⟨s, hs, hws⟩ := List.mem_map.mp hw
  obtain ⟨dp, hdp, hds⟩ := List.mem_filterMap.mp hs
  have hs0 := (hday dp hdp s hds).2
  rw [← hws]
  exact mul_nonneg hs0 (by norm_num)

/-- Witness for C10: one flat 30-bar day paired with itself. -/
theorem placebo_distribution_nonneg_witness :
    ([(exFlatDay, exFlatDay)].all
        (fun dp => dp.1.all (fun p => decide (0 < p.2))
          && dp.2.all (fun p => decide (0 < p.2))) = true)
    ∧ (∀ w ∈ placeboDistribution [(exFlatDay, exFlatDay)], 0 ≤ w) :=
  ⟨by with_unfolding_all decide,
   (placebo_distribution_nonneg [(exFlatDay, exFlatDay)]
      (by with_unfolding_all decide)).2⟩

end CaracasSignal
